import Mathlib

/-!
# Verification of the OISP app-discovery script

A shallow embedding of the core logic of `scripts/discover-apps.py`:
keyword classification (`is_ai_related`), slug generation (`generate_app_id`),
the macOS bundle-id deduplication loop (`discover_all_macos`), the Linux
desktop-entry parser (`parse_desktop_file`), code-signing inspection
(`get_team_id`), icon conversion temp-file handling, registry sorting and
dictionary export (`to_dict`).

Python strings are modelled as `List Char` (a `str` is a sequence of code
points). `str.lower()` is modelled with `Char.toLower`, which agrees with
Python's `lower` on ASCII text (all keyword data is ASCII). External effects
(subprocess results, the filesystem) are modelled as explicit inputs: a
subprocess call is a value of an outcome type, a directory scan is the list of
per-bundle parse results in scan order. Python exceptions are modelled with
`Except`: code that runs without a `try` block propagates the error value.
-/

/-- Python's substring test `needle in haystack` on strings. -/
def pyContains (needle : List Char) : List Char → Bool
  | [] => needle.isEmpty
  | c :: rest => needle.isPrefixOf (c :: rest) || pyContains needle rest

/-- Python's `str.lower()` (ASCII range, which covers all keyword data). -/
def pyLower (s : List Char) : List Char := s.map Char.toLower

/-- `AI_APP_KEYWORDS` from `discover-apps.py`. -/
def AI_APP_KEYWORDS : List (List Char) :=
  ([ "cursor", "copilot", "cody", "claude", "chatgpt", "openai", "anthropic",
     "gpt", "gemini", "bard", "perplexity", "phind", "tabnine", "kite",
     "windsurf", "continue", "aider", "codeium", "sourcegraph", "pieces",
     "notion", "obsidian", "grammarly", "jasper", "copy.ai", "writesonic",
     "midjourney", "dall-e", "stable-diffusion", "runway", "luma",
     "whisper", "otter", "descript", "krisp",
     "raycast", "alfred",
     "warp",
     "fig",
     "zed" ] : List String).map String.toList

/-- `AI_HOST_APPS` from `discover-apps.py`. -/
def AI_HOST_APPS : List (List Char) :=
  ([ "visual studio code", "vscode", "intellij", "pycharm", "webstorm",
     "goland", "rider", "clion", "datagrip", "rubymine", "phpstorm",
     "android studio", "xcode", "sublime text", "atom", "vim", "neovim",
     "emacs", "nova", "bbedit", "textmate" ] : List String).map String.toList

/-- `is_ai_related(name, bundle_id="")`: first the AI-keyword loop (any match
returns `(True, False)`), then the host-keyword loop (any match returns
`(False, True)`), else `(False, False)`. The Python `for` loops with early
`return` are rendered with `List.any`, which short-circuits identically. -/
def is_ai_related (name : List Char) (bundle_id : List Char := []) : Bool × Bool :=
  let name_lower := pyLower name
  let bundle_lower := pyLower bundle_id
  if AI_APP_KEYWORDS.any (fun kw => pyContains kw name_lower || pyContains kw bundle_lower) then
    (true, false)
  else if AI_HOST_APPS.any (fun host => pyContains host name_lower) then
    (false, true)
  else
    (false, false)

/-- The character class `[a-z0-9]` of the regex in `generate_app_id`. -/
def isAZ09 (c : Char) : Bool :=
  (97 ≤ c.toNat && c.toNat ≤ 122) || (48 ≤ c.toNat && c.toNat ≤ 57)

/-- `re.sub(r'[^a-z0-9]+', '-', s)`: each maximal run of characters outside
`[a-z0-9]` becomes a single `'-'`. The `inRun` flag records whether the
previous character was part of such a run (whose `'-'` is already emitted). -/
def collapseRuns : Bool → List Char → List Char
  | _, [] => []
  | inRun, c :: rest =>
    if isAZ09 c then c :: collapseRuns false rest
    else if inRun then collapseRuns true rest
    else '-' :: collapseRuns true rest

/-- Python's `s.strip(t)` for a single strip character `t`:
remove leading and trailing occurrences of `t`. -/
def pyStripChar (t : Char) (s : List Char) : List Char :=
  ((s.dropWhile (· == t)).reverse.dropWhile (· == t)).reverse

/-- `generate_app_id(name)`: lower-case, collapse non-`[a-z0-9]` runs to `'-'`,
strip leading/trailing `'-'`. -/
def generate_app_id (name : List Char) : List Char :=
  pyStripChar '-' (collapseRuns false (pyLower name))

example : generate_app_id "Hello, World!".toList = "hello-world".toList := by decide
example : generate_app_id "Visual Studio Code".toList = "visual-studio-code".toList := by decide
example : generate_app_id "!!!".toList = [] := by decide
example : is_ai_related "Visual Studio Code".toList [] = (false, true) := by decide
example : is_ai_related "Cursor".toList [] = (true, false) := by decide
example : is_ai_related "TextEdit".toList [] = (false, false) := by decide

/-! ## Character-level facts used by the slug and classification proofs -/

theorem char_toNat_ofNat_valid {n : Nat} (h : n.isValidChar) : (Char.ofNat n).toNat = n := by
  simp [Char.ofNat, h, Char.ofNatAux, Char.toNat, UInt32.toNat, BitVec.toNat_ofNatLt]

theorem toLower_toNat (c : Char) :
    (Char.toLower c).toNat = if 65 ≤ c.toNat ∧ c.toNat ≤ 90 then c.toNat + 32 else c.toNat := by
  unfold Char.toLower
  split
  · next h =>
    rw [if_pos (by omega)]
    exact char_toNat_ofNat_valid (Or.inl (by omega))
  · next h => rw [if_neg (by omega)]

theorem toLower_eq_self_of_not_upper (c : Char) (h : ¬ (65 ≤ c.toNat ∧ c.toNat ≤ 90)) :
    Char.toLower c = c := by
  unfold Char.toLower
  rw [if_neg (by omega)]

theorem char_isAlphanum_iff (c : Char) :
    c.isAlphanum = true ↔
      (65 ≤ c.toNat ∧ c.toNat ≤ 90) ∨ (97 ≤ c.toNat ∧ c.toNat ≤ 122) ∨
      (48 ≤ c.toNat ∧ c.toNat ≤ 57) := by
  have hc : c.toNat = c.val.toBitVec.toNat := rfl
  have h65 : (UInt32.toBitVec 65).toNat = 65 := rfl
  have h90 : (UInt32.toBitVec 90).toNat = 90 := rfl
  have h97 : (UInt32.toBitVec 97).toNat = 97 := rfl
  have h122 : (UInt32.toBitVec 122).toNat = 122 := rfl
  have h48 : (UInt32.toBitVec 48).toNat = 48 := rfl
  have h57 : (UInt32.toBitVec 57).toNat = 57 := rfl
  simp only [Char.isAlphanum, Char.isAlpha, Char.isUpper, Char.isLower, Char.isDigit,
    Bool.or_eq_true, Bool.and_eq_true, decide_eq_true_eq, ge_iff_le,
    UInt32.le_def, BitVec.le_def]
  omega

theorem isAZ09_iff (c : Char) :
    isAZ09 c = true ↔ (97 ≤ c.toNat ∧ c.toNat ≤ 122) ∨ (48 ≤ c.toNat ∧ c.toNat ≤ 57) := by
  simp [isAZ09]

theorem isAZ09_toLower_of_isAlphanum {c : Char} (h : c.isAlphanum = true) :
    isAZ09 (Char.toLower c) = true := by
  rw [isAZ09_iff, toLower_toNat]
  rcases (char_isAlphanum_iff c).mp h with h' | h' | h'
  · rw [if_pos h']; omega
  · rw [if_neg (by omega)]; omega
  · rw [if_neg (by omega)]; omega

theorem isAZ09_dash : isAZ09 '-' = false := by decide

theorem ne_dash_of_isAZ09 {c : Char} (h : isAZ09 c = true) : c ≠ '-' := by
  intro h'
  rw [h'] at h
  exact absurd h (by decide)

/-! ## Structure of `collapseRuns` output -/

theorem collapseRuns_chars {flag : Bool} {s : List Char} :
    ∀ c ∈ collapseRuns flag s, isAZ09 c = true ∨ c = '-' := by
  induction s generalizing flag with
  | nil => intro c hc; cases hc
  | cons a rest ih =>
    intro c hc
    by_cases ha : isAZ09 a = true
    · rw [collapseRuns, if_pos ha] at hc
      rcases List.mem_cons.mp hc with h | h
      · exact Or.inl (h ▸ ha)
      · exact ih c h
    · rw [collapseRuns, if_neg ha] at hc
      cases flag with
      | true => exact ih c (by simpa using hc)
      | false =>
        rcases List.mem_cons.mp (by simpa using hc) with h | h
        · exact Or.inr h
        · exact ih c h

theorem collapseRuns_mem {c : Char} (hc : isAZ09 c = true) :
    ∀ {flag : Bool} {s : List Char}, c ∈ s → c ∈ collapseRuns flag s := by
  intro flag s
  induction s generalizing flag with
  | nil => intro h; cases h
  | cons a rest ih =>
    intro h
    by_cases ha : isAZ09 a = true
    · rw [collapseRuns, if_pos ha]
      rcases List.mem_cons.mp h with h' | h'
      · exact h' ▸ List.mem_cons_self _ _
      · exact List.mem_cons_of_mem _ (ih h')
    · have hne : c ≠ a := fun h' => ha (h' ▸ hc)
      have h' : c ∈ rest := (List.mem_cons.mp h).resolve_left hne
      rw [collapseRuns, if_neg ha]
      cases flag with
      | true => simpa using ih h'
      | false => simpa using List.mem_cons_of_mem _ (ih h')

theorem collapseRuns_head_true {s : List Char} :
    ∀ c, (collapseRuns true s).head? = some c → isAZ09 c = true := by
  induction s with
  | nil => intro c h; cases h
  | cons a rest ih =>
    intro c h
    by_cases ha : isAZ09 a = true
    · rw [collapseRuns, if_pos ha] at h
      cases h
      exact ha
    · rw [collapseRuns, if_neg ha] at h
      exact ih c (by simpa using h)

theorem collapseRuns_chain (flag : Bool) (s : List Char) :
    List.Chain' (fun a b => ¬(a = '-' ∧ b = '-')) (collapseRuns flag s) := by
  induction s generalizing flag with
  | nil => exact List.chain'_nil
  | cons a rest ih =>
    by_cases ha : isAZ09 a = true
    · rw [collapseRuns, if_pos ha]
      refine List.chain'_cons'.mpr ⟨?_, ih _⟩
      intro y _ hy
      exact ne_dash_of_isAZ09 ha hy.1
    · rw [collapseRuns, if_neg ha]
      cases flag with
      | true => simpa using ih _
      | false =>
        simp only [if_neg, Bool.false_eq_true, ite_false]
        refine List.chain'_cons'.mpr ⟨?_, ih _⟩
        intro y hy h
        exact ne_dash_of_isAZ09 (collapseRuns_head_true y hy) h.2

theorem collapseRuns_all_dash {s : List Char} (h : ∀ c ∈ s, isAZ09 c = false) :
    collapseRuns true s = [] ∧ (s ≠ [] → collapseRuns false s = ['-']) := by
  induction s with
  | nil => exact ⟨rfl, fun h' => absurd rfl h'⟩
  | cons a rest ih =>
    have ha : isAZ09 a = false := h a (List.mem_cons_self _ _)
    have ih' := ih (fun c hc => h c (List.mem_cons_of_mem _ hc))
    constructor
    · rw [collapseRuns, if_neg (by simp [ha]), if_pos rfl]
      exact ih'.1
    · intro _
      rw [collapseRuns, if_neg (by simp [ha])]
      simp only [Bool.false_eq_true, ite_false]
      rw [ih'.1]

/-! ## Structure of `pyStripChar` output -/

theorem dropWhileSuffix {α : Type} (p : α → Bool) (l : List α) : l.dropWhile p <:+ l :=
  List.dropWhile_suffix p

theorem mem_dropWhile_of_mem (p : Char → Bool) (c : Char) (hc : p c = false) :
    ∀ {l : List Char}, c ∈ l → c ∈ l.dropWhile p := by
  intro l
  induction l with
  | nil => intro h; cases h
  | cons a rest ih =>
    intro h
    by_cases ha : p a = true
    · rw [List.dropWhile_cons, if_pos ha]
      have hne : c ≠ a := fun h' => by rw [h', ha] at hc; cases hc
      exact ih ((List.mem_cons.mp h).resolve_left hne)
    · rw [List.dropWhile_cons, if_neg ha]
      exact h

theorem head_dropWhile_false {p : Char → Bool} :
    ∀ {l : List Char} {c : Char}, (l.dropWhile p).head? = some c → p c = false := by
  intro l
  induction l with
  | nil => intro c h; cases h
  | cons a rest ih =>
    intro c h
    by_cases ha : p a = true
    · rw [List.dropWhile_cons, if_pos ha] at h
      exact ih h
    · rw [List.dropWhile_cons, if_neg ha] at h
      cases h
      exact Bool.not_eq_true _ ▸ ha

/-- `pyStripChar t s` sits inside `s`: `s = pre ++ pyStripChar t s ++ post`. -/
theorem pyStripChar_decomp (t : Char) (s : List Char) :
    ∃ pre post, s = pre ++ (pyStripChar t s ++ post) := by
  obtain ⟨pre, hpre⟩ := dropWhileSuffix (· == t) s
  obtain ⟨q, hq⟩ := dropWhileSuffix (· == t) ((s.dropWhile (· == t)).reverse)
  refine ⟨pre, q.reverse, ?_⟩
  have hthis : s.dropWhile (· == t) = pyStripChar t s ++ q.reverse := by
    have := congrArg List.reverse hq
    simpa [pyStripChar, List.reverse_append] using this.symm
  calc s = pre ++ s.dropWhile (· == t) := hpre.symm
    _ = pre ++ (pyStripChar t s ++ q.reverse) := by rw [hthis]

theorem pyStripChar_mem {t c : Char} (hc : c ≠ t) {s : List Char} (h : c ∈ s) :
    c ∈ pyStripChar t s := by
  have hb : (c == t) = false := by simpa using hc
  have h1 : c ∈ s.dropWhile (· == t) := mem_dropWhile_of_mem (· == t) c hb h
  have h2 : c ∈ (s.dropWhile (· == t)).reverse := List.mem_reverse.mpr h1
  have h3 : c ∈ ((s.dropWhile (· == t)).reverse).dropWhile (· == t) :=
    mem_dropWhile_of_mem (· == t) c hb h2
  exact List.mem_reverse.mpr h3

theorem pyStripChar_head {t : Char} {s : List Char} {c : Char}
    (h : (pyStripChar t s).head? = some c) : c ≠ t := by
  have hne : pyStripChar t s ≠ [] := by
    intro h'
    rw [h'] at h
    cases h
  have hd : (s.dropWhile (· == t)).head? = some c := by
    obtain ⟨q, hq⟩ := dropWhileSuffix (· == t) ((s.dropWhile (· == t)).reverse)
    have hrw : s.dropWhile (· == t) = pyStripChar t s ++ q.reverse := by
      have := congrArg List.reverse hq
      simpa [pyStripChar, List.reverse_append] using this.symm
    rw [hrw]
    cases hps : pyStripChar t s with
    | nil => exact absurd hps hne
    | cons x xs =>
      rw [hps] at h
      cases h
      simp
  have := head_dropWhile_false hd
  simpa using this

theorem pyStripChar_getLast {t : Char} {s : List Char} {c : Char}
    (h : (pyStripChar t s).getLast? = some c) : c ≠ t := by
  have h' : ((s.dropWhile (· == t)).reverse.dropWhile (· == t)).head? = some c := by
    have : (pyStripChar t s).getLast? = (pyStripChar t s).reverse.head? :=
      (List.head?_reverse _).symm
    rw [this] at h
    simpa [pyStripChar] using h
  have := head_dropWhile_false h'
  simpa using this

/-! ## Claims C3, C4, C10: classification and slug generation -/

/-- C3: `is_ai_related` is total and returns exactly one of the three states
`(true, false)` (AI app), `(false, true)` (AI host), `(false, false)` (neither)
— never both flags true — and any name containing an AI keyword
(case-insensitively, i.e. in its lowered form) yields the AI-app state, even if
the name also contains a host keyword, because the AI check precedes the host
check. -/
theorem is_ai_related_classification (name bundle_id : List Char) :
    (is_ai_related name bundle_id = (true, false) ∨
     is_ai_related name bundle_id = (false, true) ∨
     is_ai_related name bundle_id = (false, false)) ∧
    ((∃ kw ∈ AI_APP_KEYWORDS, pyContains kw (pyLower name) = true) →
      is_ai_related name bundle_id = (true, false)) := by
  constructor
  · simp only [is_ai_related]
    split
    · exact Or.inl rfl
    · split
      · exact Or.inr (Or.inl rfl)
      · exact Or.inr (Or.inr rfl)
  · rintro ⟨kw, hkw, hc⟩
    have hany : AI_APP_KEYWORDS.any
        (fun kw => pyContains kw (pyLower name) || pyContains kw (pyLower bundle_id)) = true :=
      List.any_eq_true.mpr ⟨kw, ⟨hkw, by rw [hc]; rfl⟩⟩
    simp only [is_ai_related, hany, if_true]

/-- Witness for C3 at a name containing both an AI keyword (`"copilot"`) and a
host keyword (`"visual studio code"`): the result is the AI-app state. -/
theorem is_ai_related_classification_witness :
    (∃ kw ∈ AI_APP_KEYWORDS,
      pyContains kw (pyLower "GitHub Copilot for Visual Studio Code".toList) = true) ∧
    (∃ host ∈ AI_HOST_APPS,
      pyContains host (pyLower "GitHub Copilot for Visual Studio Code".toList) = true) ∧
    is_ai_related "GitHub Copilot for Visual Studio Code".toList [] = (true, false) :=
  ⟨⟨"copilot".toList, by decide, by decide⟩,
   ⟨"visual studio code".toList, by decide, by decide⟩,
   (is_ai_related_classification "GitHub Copilot for Visual Studio Code".toList []).2
     ⟨"copilot".toList, by decide, by decide⟩⟩

/-- C4: for every name containing at least one (ASCII) alphanumeric character,
`generate_app_id` returns a non-empty string over `[a-z0-9-]` with no leading,
trailing, or consecutive hyphens. -/
theorem generate_app_id_slug (name : List Char)
    (h : ∃ c ∈ name, c.isAlphanum = true) :
    generate_app_id name ≠ [] ∧
    (∀ c ∈ generate_app_id name, isAZ09 c = true ∨ c = '-') ∧
    (∀ c, (generate_app_id name).head? = some c → c ≠ '-') ∧
    (∀ c, (generate_app_id name).getLast? = some c → c ≠ '-') ∧
    List.Chain' (fun a b => ¬(a = '-' ∧ b = '-')) (generate_app_id name) := by
  unfold generate_app_id
  obtain ⟨c, hc, hac⟩ := h
  have hlc : Char.toLower c ∈ pyLower name := List.mem_map_of_mem _ hc
  have haz : isAZ09 (Char.toLower c) = true := isAZ09_toLower_of_isAlphanum hac
  have hcc : Char.toLower c ∈ collapseRuns false (pyLower name) := collapseRuns_mem haz hlc
  have hned : Char.toLower c ≠ '-' := ne_dash_of_isAZ09 haz
  obtain ⟨pre, post, hdec⟩ := pyStripChar_decomp '-' (collapseRuns false (pyLower name))
  refine ⟨?_, ?_, ?_, ?_, ?_⟩
  · exact List.ne_nil_of_mem (pyStripChar_mem hned hcc)
  · intro d hd
    have hmem : d ∈ collapseRuns false (pyLower name) := by
      rw [hdec]
      exact List.mem_append.mpr (Or.inr (List.mem_append.mpr (Or.inl hd)))
    exact collapseRuns_chars d hmem
  · exact fun d hd => pyStripChar_head hd
  · exact fun d hd => pyStripChar_getLast hd
  · have hchain := collapseRuns_chain false (pyLower name)
    rw [hdec] at hchain
    exact (List.chain'_append.mp ((List.chain'_append.mp hchain).2.1)).1

/-- Witness for C4 at the concrete name `"Hello, World!"`. -/
theorem generate_app_id_slug_witness :
    (∃ c ∈ "Hello, World!".toList, c.isAlphanum = true) ∧
    (generate_app_id "Hello, World!".toList ≠ [] ∧
     (∀ c ∈ generate_app_id "Hello, World!".toList, isAZ09 c = true ∨ c = '-') ∧
     (∀ c, (generate_app_id "Hello, World!".toList).head? = some c → c ≠ '-') ∧
     (∀ c, (generate_app_id "Hello, World!".toList).getLast? = some c → c ≠ '-') ∧
     List.Chain' (fun a b => ¬(a = '-' ∧ b = '-')) (generate_app_id "Hello, World!".toList)) :=
  ⟨by decide, generate_app_id_slug "Hello, World!".toList (by decide)⟩

/-- C10: `generate_app_id` is total (it is a plain function in this model; none
of the Python operations it uses can raise), and on any non-empty name made
only of ASCII non-alphanumeric characters it returns the empty string: the
whole name is one run, collapsed to a single `'-'`, which is then stripped. -/
theorem generate_app_id_nonalnum_empty (name : List Char) (h1 : name ≠ [])
    (h2 : ∀ c ∈ name, c.toNat < 128 ∧ c.isAlphanum = false) :
    generate_app_id name = [] := by
  have hlow : pyLower name = name := by
    have : ∀ c ∈ name, Char.toLower c = c := by
      intro c hc
      apply toLower_eq_self_of_not_upper
      intro hr
      have := (char_isAlphanum_iff c).mpr (Or.inl hr)
      rw [(h2 c hc).2] at this
      cases this
    calc pyLower name = name.map id := List.map_congr_left this
      _ = name := List.map_id name
  have haz : ∀ c ∈ name, isAZ09 c = false := by
    intro c hc
    by_contra hne
    have hz := (isAZ09_iff c).mp (Bool.not_eq_false _ ▸ hne)
    have : c.isAlphanum = true := (char_isAlphanum_iff c).mpr (by omega)
    rw [(h2 c hc).2] at this
    cases this
  obtain ⟨-, h3⟩ := collapseRuns_all_dash haz
  rw [generate_app_id, hlow, h3 h1]
  decide

/-- Witness for C10 at the concrete name `"-- !"`. -/
theorem generate_app_id_nonalnum_empty_witness :
    "-- !".toList ≠ [] ∧ (∀ c ∈ "-- !".toList, c.toNat < 128 ∧ c.isAlphanum = false) ∧
    generate_app_id "-- !".toList = [] :=
  ⟨by decide, by decide, generate_app_id_nonalnum_empty "-- !".toList (by decide) (by decide)⟩

/-! ## Subprocess modelling: `_get_team_id` (C1) and `_extract_icon` (C2)

`subprocess.run` is modelled by the outcome it produces: either the call
raises (`FileNotFoundError` when the binary is absent, `TimeoutExpired` when
the timeout fires) or it completes with a return code and captured output.
`_get_team_id` invokes `subprocess.run` directly with no `try` block (unlike
the `run_command` helper in the same file), so a raised outcome propagates as
an `Except.error`. -/

inductive PyErr where
  | fileNotFoundError
  | timeoutExpired
  | indexError

inductive RunOutcome where
  /-- `subprocess.run` raised before producing a result. -/
  | raises (e : PyErr)
  /-- `subprocess.run` returned, with exit code and captured stdout/stderr. -/
  | completes (returncode : Int) (stdout stderr : List Char)

/-- Python ASCII whitespace, the characters `str.strip()` / `str.split()`
remove (space, tab, newline, carriage return, vertical tab, form feed). -/
def isPySpace (c : Char) : Bool :=
  c == ' ' || c == '\t' || c == '\n' || c == '\r' || c == '\x0b' || c == '\x0c'

/-- Python's `s.strip()` with no argument: remove leading and trailing
whitespace. -/
def pyStrip (s : List Char) : List Char :=
  ((s.dropWhile isPySpace).reverse.dropWhile isPySpace).reverse

/-- Python's `s.split(sep)` for a one-character separator: split at every
occurrence, keeping empty parts. -/
def pySplitChar (sep : Char) : List Char → List (List Char)
  | [] => [[]]
  | c :: rest =>
    match pySplitChar sep rest with
    | [] => [[]]
    | cur :: more => if c == sep then [] :: cur :: more else (c :: cur) :: more

example : pySplitChar '=' "TeamIdentifier=ABC=X".toList
    = ["TeamIdentifier".toList, "ABC".toList, "X".toList] := by decide

/-- The scanning loop of `_get_team_id`: for each stderr line containing
`TeamIdentifier=`, take `line.split('=')[1].strip()` and return it unless it
is empty or the literal `not set`; otherwise keep scanning. A line containing
`TeamIdentifier=` always has an `'='`, so `split('=')` has a second element;
the `[1]` access is modelled faithfully with an `IndexError` on the
(unreachable) one-part case. -/
def scanTeamLines : List (List Char) → Except PyErr (Option (List Char))
  | [] => .ok none
  | line :: rest =>
    if pyContains "TeamIdentifier=".toList line then
      match pySplitChar '=' line with
      | _ :: t :: _ =>
        let team_id := pyStrip t
        if team_id ≠ [] ∧ team_id ≠ "not set".toList then .ok (some team_id)
        else scanTeamLines rest
      | _ => .error .indexError
    else scanTeamLines rest

/-- `_get_team_id`: run `codesign -dv` (no `try` around it: a raised outcome
propagates), read its stderr, and scan the lines for a `TeamIdentifier=`
entry. -/
def get_team_id (outcome : RunOutcome) : Except PyErr (Option (List Char)) :=
  match outcome with
  | .raises e => .error e
  | .completes _rc _out err =>
    if err ≠ [] then scanTeamLines (pySplitChar '\n' err) else .ok none

/-- C1 (code bug): when `codesign` is absent (`FileNotFoundError`) or exceeds
its 10-second timeout (`TimeoutExpired`), `_get_team_id` does not return
`None` — the exception propagates (aborting discovery), because the
`subprocess.run` call has no `try`/`except`, unlike the `run_command` helper
in the same file. On completed runs the scan behaves as specified: a valid
`TeamIdentifier=` line yields the identifier, `not set` and empty stderr yield
`None`. -/
theorem get_team_id_raises_on_tool_failure :
    get_team_id (.raises .fileNotFoundError) = .error .fileNotFoundError ∧
    get_team_id (.raises .timeoutExpired) = .error .timeoutExpired ∧
    get_team_id (.completes 0 []
        "Executable=/Applications/X.app\nTeamIdentifier=ABCDE12345".toList)
      = .ok (some "ABCDE12345".toList) ∧
    get_team_id (.completes 1 [] "TeamIdentifier=not set".toList) = .ok none ∧
    get_team_id (.completes 0 [] []) = .ok none :=
  ⟨rfl, rfl, rfl, rfl, rfl⟩

/-- The possible outcomes of the `sips` conversion call inside
`_extract_icon`'s `try` block. -/
inductive ConvOutcome where
  /-- `subprocess.run(['sips', ...])` (or the subsequent read) raised;
  `TimeoutExpired` is the documented case. -/
  | raises (e : PyErr)
  /-- `sips` completed with this exit code; `outExists` is whether the
  temporary output file exists afterwards, `data` its content. -/
  | completes (returncode : Int) (outExists : Bool) (data : List Char)

/-- The result of the conversion part of `_extract_icon`, together with
whether the `NamedTemporaryFile(delete=False)` file is still on disk when the
function returns. -/
structure IconTempResult where
  returned : Option (List Char)
  tmpRemains : Bool

/-- The conversion part of `_extract_icon`, starting right after the temporary
file has been created: on success read the PNG bytes and `os.unlink` the temp
file; on conversion failure `os.unlink` it if it exists; on an exception the
`except` handler only prints — it never unlinks, so the temp file stays on
disk. -/
def convert_icon_with_temp : ConvOutcome → IconTempResult
  | .raises _ => { returned := none, tmpRemains := true }
  | .completes rc outExists data =>
    if rc = 0 ∧ outExists = true then { returned := some data, tmpRemains := false }
    else if outExists = true then { returned := none, tmpRemains := false }
    else { returned := none, tmpRemains := false }

/-- C2 (code bug): the temporary file is removed on the success and
conversion-failure exit paths, but NOT on the exception path (e.g. a `sips`
timeout): the `except` handler returns without `os.unlink`, leaving the file
behind, contrary to the claim that every exit path deletes it. -/
theorem extract_icon_temp_file :
    (convert_icon_with_temp (.raises .timeoutExpired)).tmpRemains = true ∧
    (∀ rc outExists data,
      (convert_icon_with_temp (.completes rc outExists data)).tmpRemains = false) ∧
    (∀ data, convert_icon_with_temp (.completes 0 true data)
      = { returned := some data, tmpRemains := false }) := by
  refine ⟨rfl, ?_, ?_⟩
  · intro rc outExists data
    simp only [convert_icon_with_temp]
    split
    · rfl
    · split
      · rfl
      · rfl
  · intro data
    rfl

/-! ## Data model: `AppSignature` and `DiscoveredApp`

Python `Optional[str]` fields are `Option (List Char)`; a present empty string
is `some []` (falsy in Python, distinct from `None`). The timestamp and
machine-id fields are environment-derived opaque strings; they default to `[]`
here and no claim depends on them. -/

structure AppSignature where
  bundle_id : Option (List Char) := none
  team_id : Option (List Char) := none
  paths : List (List Char) := []
  executable_name : Option (List Char) := none
  publisher : Option (List Char) := none
  version : Option (List Char) := none

structure DiscoveredApp where
  app_id : List Char
  name : List Char
  vendor : Option (List Char) := none
  category : List Char := "other".toList
  path : List Char := []
  macos : Option AppSignature := none
  windows : Option AppSignature := none
  linux : Option AppSignature := none
  icon_path : Option (List Char) := none
  icon_base64 : Option (List Char) := none
  is_ai_app : Bool := false
  is_ai_host : Bool := false
  discovered_at : List Char := []
  machine_id : List Char := []

/-- The bundle identifier a `DiscoveredApp` carries in its macOS signature. -/
def app_bundle_id (a : DiscoveredApp) : Option (List Char) :=
  a.macos.bind (fun sig => sig.bundle_id)

/-! ## Claim C7: the macOS dedup loop of `discover_all`

The filesystem walk is abstracted as the list of `_discover_app` results in
scan order (`none` for bundles that were skipped). The loop body is the
literal condition `if app and app.macos and app.macos.bundle_id:` followed by
the `seen_bundle_ids` check; `seen_bundle_ids` (a Python `set`) is modelled as
the list of identifiers added so far. -/

def discover_all_macos : List (Option DiscoveredApp) → List (List Char) → List DiscoveredApp
  | [], _ => []
  | none :: rest, seen => discover_all_macos rest seen
  | some app :: rest, seen =>
    match app_bundle_id app with
    | none => discover_all_macos rest seen
    | some bid =>
      if bid = [] then discover_all_macos rest seen
      else if bid ∈ seen then discover_all_macos rest seen
      else app :: discover_all_macos rest (bid :: seen)

/-- The candidates that pass the `if app and app.macos and app.macos.bundle_id`
test, in scan order, before deduplication. -/
def valid_macos_candidates (cands : List (Option DiscoveredApp)) : List DiscoveredApp :=
  cands.filterMap (fun o => o.bind (fun app =>
    match app_bundle_id app with
    | some bid => if bid = [] then none else some app
    | none => none))

/-- Every app emitted by the loop carries a non-empty bundle id not in the
starting `seen` set. -/
theorem discover_all_macos_mem {cands : List (Option DiscoveredApp)}
    {seen : List (List Char)} {a : DiscoveredApp}
    (h : a ∈ discover_all_macos cands seen) :
    ∃ bid, app_bundle_id a = some bid ∧ bid ≠ [] ∧ bid ∉ seen := by
  induction cands generalizing seen with
  | nil => cases h
  | cons o rest ih =>
    match o with
    | none => exact ih h
    | some app =>
      rw [discover_all_macos] at h
      cases hb : app_bundle_id app with
      | none => rw [hb] at h; exact ih h
      | some bid =>
        rw [hb] at h
        simp only [] at h
        by_cases hnil : bid = []
        · rw [if_pos hnil] at h; exact ih h
        · rw [if_neg hnil] at h
          by_cases hseen : bid ∈ seen
          · rw [if_pos hseen] at h; exact ih h
          · rw [if_neg hseen] at h
            rcases List.mem_cons.mp h with h' | h'
            · subst h'
              exact ⟨bid, hb, hnil, hseen⟩
            · obtain ⟨b, hb1, hb2, hb3⟩ := ih h'
              exact ⟨b, hb1, hb2, fun hm => hb3 (List.mem_cons_of_mem _ hm)⟩

/-- The emitted bundle identifiers are pairwise distinct. -/
theorem discover_all_macos_pairwise (cands : List (Option DiscoveredApp))
    (seen : List (List Char)) :
    (discover_all_macos cands seen).Pairwise
      (fun a b => app_bundle_id a ≠ app_bundle_id b) := by
  induction cands generalizing seen with
  | nil => exact List.Pairwise.nil
  | cons o rest ih =>
    match o with
    | none => exact ih seen
    | some app =>
      rw [discover_all_macos]
      cases hb : app_bundle_id app with
      | none => exact ih seen
      | some bid =>
        simp only []
        by_cases hnil : bid = []
        · rw [if_pos hnil]; exact ih seen
        · rw [if_neg hnil]
          by_cases hseen : bid ∈ seen
          · rw [if_pos hseen]; exact ih seen
          · rw [if_neg hseen]
            refine List.Pairwise.cons ?_ (ih (bid :: seen))
            intro b hbmem heq
            obtain ⟨b', hb1, _, hb3⟩ := discover_all_macos_mem hbmem
            rw [hb1, hb] at heq
            exact hb3 (Option.some.inj heq ▸ List.mem_cons_self _ _)

theorem find?_cons_pos {α : Type} (p : α → Bool) (a : α) (l : List α) (h : p a = true) :
    List.find? p (a :: l) = some a :=
  List.find?_cons_of_pos l h

theorem find?_cons_neg {α : Type} (p : α → Bool) (a : α) (l : List α) (h : ¬ p a = true) :
    List.find? p (a :: l) = List.find? p l :=
  List.find?_cons_of_neg l h

/-- First occurrence wins: looking up any bundle id in the loop output finds
exactly the first valid candidate carrying it (provided the id is not already
in `seen`). -/
theorem discover_all_macos_find (cands : List (Option DiscoveredApp))
    {seen : List (List Char)} {bid : List Char} (hseen : bid ∉ seen) :
    (discover_all_macos cands seen).find? (fun a => app_bundle_id a == some bid)
      = (valid_macos_candidates cands).find? (fun a => app_bundle_id a == some bid) := by
  induction cands generalizing seen with
  | nil => rfl
  | cons o rest ih =>
    match o with
    | none =>
      rw [discover_all_macos]
      rw [show valid_macos_candidates (none :: rest) = valid_macos_candidates rest from rfl]
      exact ih hseen
    | some app =>
      rw [discover_all_macos]
      have hval : valid_macos_candidates (some app :: rest)
          = (match app_bundle_id app with
             | some b => if b = [] then none else some app
             | none => none).toList ++ valid_macos_candidates rest := by
        simp [valid_macos_candidates, List.filterMap_cons]
        cases app_bundle_id app with
        | none => rfl
        | some b =>
          by_cases hb : b = []
          · simp [hb]
          · simp [hb]
      cases hb : app_bundle_id app with
      | none =>
        rw [hb] at hval
        simp only [Option.toList_none, List.nil_append] at hval
        rw [hval]
        exact ih hseen
      | some b =>
        rw [hb] at hval
        simp only [] at hval ⊢
        by_cases hnil : b = []
        · rw [if_pos hnil] at hval ⊢
          simp only [Option.toList_none, List.nil_append] at hval
          rw [hval]
          exact ih hseen
        · rw [if_neg hnil] at hval ⊢
          simp only [Option.toList_some, List.singleton_append] at hval
          rw [hval]
          by_cases hmatch : b = bid
          · subst hmatch
            rw [if_neg hseen]
            have hp : (fun a => app_bundle_id a == some b) app = true := by simp [hb]
            rw [find?_cons_pos (fun a => app_bundle_id a == some b) app _ hp,
              find?_cons_pos (fun a => app_bundle_id a == some b) app _ hp]
          · have hp : ¬ ((fun a => app_bundle_id a == some bid) app = true) := by
              simp [hb, hmatch]
            by_cases hsn : b ∈ seen
            · rw [if_pos hsn,
                find?_cons_neg (fun a => app_bundle_id a == some bid) app _ hp]
              exact ih hseen
            · rw [if_neg hsn,
                find?_cons_neg (fun a => app_bundle_id a == some bid) app _ hp,
                find?_cons_neg (fun a => app_bundle_id a == some bid) app _ hp]
              exact ih (by
                intro hm
                rcases List.mem_cons.mp hm with h' | h'
                · exact hmatch h'.symm
                · exact hseen h')

/-- Two bundles sharing `CFBundleIdentifier = "com.openai.chat"` at different
paths (the spec's duplicate-bundle scenario). -/
def chatgptFirst : DiscoveredApp :=
  { app_id := "chatgpt".toList, name := "ChatGPT".toList,
    path := "/Applications/ChatGPT.app".toList,
    macos := some { bundle_id := some "com.openai.chat".toList,
                    paths := ["/Applications/ChatGPT.app".toList] } }

def chatgptSecond : DiscoveredApp :=
  { app_id := "chatgpt".toList, name := "ChatGPT".toList,
    path := "/Users/u/Applications/ChatGPT.app".toList,
    macos := some { bundle_id := some "com.openai.chat".toList,
                    paths := ["/Users/u/Applications/ChatGPT.app".toList] } }

/-- C7: the macOS collector's output has pairwise distinct bundle identifiers;
looking any identifier up in the output finds exactly the first valid
candidate in scan order that carries it (so the first record, with its
install path, is the one kept); and on the spec's concrete scenario — two
bundles sharing `com.openai.chat` at different paths — exactly the first
record is emitted. -/
theorem discover_all_macos_dedup :
    (∀ cands : List (Option DiscoveredApp),
      (discover_all_macos cands []).Pairwise
        (fun a b => app_bundle_id a ≠ app_bundle_id b)) ∧
    (∀ (cands : List (Option DiscoveredApp)) (bid : List Char),
      (discover_all_macos cands []).find? (fun a => app_bundle_id a == some bid)
        = (valid_macos_candidates cands).find? (fun a => app_bundle_id a == some bid)) ∧
    discover_all_macos [some chatgptFirst, some chatgptSecond] [] = [chatgptFirst] :=
  ⟨fun cands => discover_all_macos_pairwise cands [],
   fun cands bid => discover_all_macos_find cands (List.not_mem_nil bid),
   rfl⟩

/-! ## The Linux desktop-entry parser (`_parse_desktop_file`) and the macOS
category assignment of `_discover_app` -/

/-- Python's `s.startswith(pre)`. -/
def pyStartsWith (pre s : List Char) : Bool := pre.isPrefixOf s

/-- `line.split(sep, 1)[1]` for a line known to contain `sep`: everything
after the first occurrence of `sep`. -/
def pyAfterFirst (sep : Char) (s : List Char) : List Char :=
  (s.dropWhile (fun c => c != sep)).drop 1

/-- `s.split()[0]`: the first whitespace-separated word; `none` models the
`IndexError` raised when `s` has no non-whitespace character. -/
def pyFirstWord (s : List Char) : Option (List Char) :=
  let t := s.dropWhile isPySpace
  if t.isEmpty then none else some (t.takeWhile (fun c => !(isPySpace c)))

/-- `pathlib.Path(s).name`: the final path component. -/
def pathlibName (s : List Char) : List Char :=
  (((pySplitChar '/' s).filter (fun p => p ≠ [])).getLast?).getD []

example : pathlibName "/usr/bin/code".toList = "code".toList := by decide

/-- The line loop of `_parse_desktop_file`: each `Name=` line overwrites
`name`, each `Exec=` line overwrites `exec_path` with the first word of its
value (raising `IndexError` when the value has no word, since
`split()[0]` is unguarded). -/
def desktopLoop :
    List (List Char) → Option (List Char) → Option (List Char) →
      Except PyErr (Option (List Char) × Option (List Char))
  | [], name, ex => .ok (name, ex)
  | line :: rest, name, ex =>
    if pyStartsWith "Name=".toList line then
      desktopLoop rest (some (pyStrip (pyAfterFirst '=' line))) ex
    else if pyStartsWith "Exec=".toList line then
      match pyFirstWord (pyAfterFirst '=' line) with
      | none => .error .indexError
      | some w => desktopLoop rest name (some (pyStrip w))
    else desktopLoop rest name ex

/-- `_parse_desktop_file` on the file content (the `read_text` result):
run the line loop over `content.split('\n')`, skip the entry when `name` is
`None` or empty, otherwise build the record — with `category` hard-coded to
`"other"` (the Linux collector never assigns any other category). -/
def parse_desktop_file (content : List Char) : Except PyErr (Option DiscoveredApp) :=
  match desktopLoop (pySplitChar '\n' content) none none with
  | .error e => .error e
  | .ok (name?, exec?) =>
    match name? with
    | none => .ok none
    | some name =>
      if name = [] then .ok none
      else
        let r := is_ai_related name []
        .ok (some {
          app_id := generate_app_id name,
          name := name,
          category := "other".toList,
          path := (match exec? with
                   | some e => if e ≠ [] then e else []
                   | none => []),
          linux := some {
            paths := (match exec? with
                      | some e => if e ≠ [] then [e] else []
                      | none => []),
            executable_name := (match exec? with
                                | some e => if e ≠ [] then some (pathlibName e) else none
                                | none => none) },
          is_ai_app := r.1,
          is_ai_host := r.2 })

/-- The value of the LAST `Name=` line of the given lines, stripped
(`Option.or` keeps the later value: lines further down override). Spec-side
definition for the amended last-occurrence claim. -/
def lastNameVal : List (List Char) → Option (List Char)
  | [] => none
  | line :: rest =>
    if pyStartsWith "Name=".toList line then
      (lastNameVal rest).or (some (pyStrip (pyAfterFirst '=' line)))
    else lastNameVal rest

/-- The first word of the value of the LAST `Exec=` line (lines starting with
`Name=` are never treated as `Exec=` lines, mirroring the `elif`). Spec-side
definition for the amended last-occurrence claim. -/
def lastExecVal : List (List Char) → Option (List Char)
  | [] => none
  | line :: rest =>
    if pyStartsWith "Name=".toList line then lastExecVal rest
    else if pyStartsWith "Exec=".toList line then
      (lastExecVal rest).or ((pyFirstWord (pyAfterFirst '=' line)).map pyStrip)
    else lastExecVal rest

theorem or_some_absorb {α : Type} (a : Option α) (v : α) (n : Option α) :
    (a.or (some v)).or n = a.or (some v) := by
  cases a <;> rfl

/-- Running the loop yields, for each of the two keys, the value of its last
occurrence when one exists, and the starting value otherwise. -/
theorem desktopLoop_last (lines : List (List Char)) :
    ∀ name ex n' e', desktopLoop lines name ex = .ok (n', e') →
      n' = (lastNameVal lines).or name ∧ e' = (lastExecVal lines).or ex := by
  induction lines with
  | nil =>
    intro name ex n' e' h
    rw [desktopLoop] at h
    cases h
    exact ⟨rfl, rfl⟩
  | cons line rest ih =>
    intro name ex n' e' h
    by_cases hn : pyStartsWith "Name=".toList line = true
    · rw [desktopLoop, if_pos hn] at h
      obtain ⟨h1, h2⟩ := ih _ _ _ _ h
      refine ⟨?_, ?_⟩
      · rw [h1, lastNameVal, if_pos hn, or_some_absorb]
      · rw [h2, lastExecVal, if_pos hn]
    · by_cases he : pyStartsWith "Exec=".toList line = true
      · rw [desktopLoop, if_neg hn, if_pos he] at h
        cases hw : pyFirstWord (pyAfterFirst '=' line) with
        | none => rw [hw] at h; cases h
        | some w =>
          rw [hw] at h
          simp only [] at h
          obtain ⟨h1, h2⟩ := ih _ _ _ _ h
          refine ⟨?_, ?_⟩
          · rw [h1, lastNameVal, if_neg hn]
          · rw [h2, lastExecVal, if_neg hn, if_pos he, hw]
            exact (or_some_absorb (lastExecVal rest) (pyStrip w) ex).symm
      · rw [desktopLoop, if_neg hn, if_neg he] at h
        obtain ⟨h1, h2⟩ := ih _ _ _ _ h
        exact ⟨by rw [h1, lastNameVal, if_neg hn],
               by rw [h2, lastExecVal, if_neg hn, if_neg he]⟩

/-- The category-assignment block of `MacOSDiscoverer._discover_app`
(`category = "other"; if is_ai: ... elif is_host: category = "dev_tools"`). -/
def macos_category (name : List Char) (is_ai is_host : Bool) : List Char :=
  if is_ai then
    if ((["code", "ide", "cursor", "copilot", "cody", "studio", "zed"] : List String).map
        String.toList).any (fun kw => pyContains kw (pyLower name)) then "dev_tools".toList
    else if ((["chat", "claude", "gpt", "gemini", "perplexity"] : List String).map
        String.toList).any (fun kw => pyContains kw (pyLower name)) then "chat".toList
    else if ((["notion", "obsidian", "grammarly"] : List String).map
        String.toList).any (fun kw => pyContains kw (pyLower name)) then "productivity".toList
    else if ((["midjourney", "dall", "stable", "runway"] : List String).map
        String.toList).any (fun kw => pyContains kw (pyLower name)) then "creative".toList
    else "other".toList
  else if is_host then "dev_tools".toList
  else "other".toList

/-! ## Claim C8: which occurrence of `Name=` / `Exec=` is used -/

/-- C8 counterexample: on a desktop file with two `Name=` lines and two
`Exec=` lines, the record is built from the SECOND (last) occurrence of each
key, not the first as claimed: the parsed name is `"Second"` (not `"First"`)
and the path is `"/opt/b"` (not `"/usr/bin/a"`). -/
theorem parse_desktop_file_uses_last_occurrence_counterexample :
    (match parse_desktop_file
        "Name=First\nName=Second\nExec=/usr/bin/a one\nExec=/opt/b two".toList with
     | .ok (some a) => some (a.name, a.path)
     | _ => none) = some ("Second".toList, "/opt/b".toList) ∧
    ("Second".toList, "/opt/b".toList) ≠ ("First".toList, "/usr/bin/a".toList) :=
  ⟨rfl, by decide⟩

/-- C8 (amended): the `Name` and `Exec` values used for the resulting record
come from the LAST occurrence of each key in the file (each matching line
overwrites the previous value); entries lacking `Name=` (or whose last `Name=`
value is empty) are skipped. -/
theorem parse_desktop_file_last_occurrence :
    (∀ lines name ex n' e', desktopLoop lines name ex = .ok (n', e') →
      n' = (lastNameVal lines).or name ∧ e' = (lastExecVal lines).or ex) ∧
    (∀ content app, parse_desktop_file content = .ok (some app) →
      lastNameVal (pySplitChar '\n' content) = some app.name ∧
      app.name ≠ [] ∧
      app.path = (lastExecVal (pySplitChar '\n' content)).getD []) ∧
    (∀ content, parse_desktop_file content = .ok none →
      lastNameVal (pySplitChar '\n' content) = none ∨
      lastNameVal (pySplitChar '\n' content) = some []) := by
  refine ⟨fun lines name ex n' e' h => desktopLoop_last lines name ex n' e' h, ?_, ?_⟩
  · intro content app h
    unfold parse_desktop_file at h
    cases hloop : desktopLoop (pySplitChar '\n' content) none none with
    | error e => rw [hloop] at h; cases h
    | ok pair =>
      obtain ⟨n', e'⟩ := pair
      rw [hloop] at h
      simp only [] at h
      obtain ⟨h1, h2⟩ := desktopLoop_last _ _ _ _ _ hloop
      rw [Option.or_none] at h1 h2
      cases n' with
      | none => cases h
      | some name =>
        simp only [] at h
        by_cases hnil : name = []
        · rw [if_pos hnil] at h
          exact Option.noConfusion (Except.ok.inj h)
        · rw [if_neg hnil] at h
          have happ' := Option.some.inj (Except.ok.inj h)
          subst happ'
          refine ⟨h1.symm, hnil, ?_⟩
          rw [← h2]
          cases e' with
          | none => rfl
          | some e =>
            by_cases he : e = []
            · subst he; rfl
            · show (if e ≠ [] then e else []) = (some e).getD []
              rw [if_pos he]
              rfl
  · intro content h
    unfold parse_desktop_file at h
    cases hloop : desktopLoop (pySplitChar '\n' content) none none with
    | error e => rw [hloop] at h; cases h
    | ok pair =>
      obtain ⟨n', e'⟩ := pair
      rw [hloop] at h
      simp only [] at h
      obtain ⟨h1, h2⟩ := desktopLoop_last _ _ _ _ _ hloop
      rw [Option.or_none] at h1
      cases n' with
      | none => exact Or.inl h1.symm
      | some name =>
        simp only [] at h
        by_cases hnil : name = []
        · rw [← h1, hnil]
          exact Or.inr rfl
        · rw [if_neg hnil] at h
          exact Option.noConfusion (Except.ok.inj h)

/-- C8 witness at the two-`Name=`/two-`Exec=` desktop file: the record the
parser accepts carries the last `Name=` value (`"Second"`, non-empty) and a
path from the last `Exec=` line. -/
def secondEntry : DiscoveredApp :=
  { app_id := "second".toList, name := "Second".toList,
    category := "other".toList, path := "/opt/b".toList,
    linux := some { paths := ["/opt/b".toList], executable_name := some "b".toList },
    is_ai_app := false, is_ai_host := false }

theorem parse_desktop_file_last_occurrence_witness :
    lastNameVal (pySplitChar '\n'
        "Name=First\nName=Second\nExec=/usr/bin/a one\nExec=/opt/b two".toList)
      = some secondEntry.name ∧
    secondEntry.name ≠ [] ∧
    secondEntry.path = (lastExecVal (pySplitChar '\n'
        "Name=First\nName=Second\nExec=/usr/bin/a one\nExec=/opt/b two".toList)).getD [] :=
  parse_desktop_file_last_occurrence.2.1
    "Name=First\nName=Second\nExec=/usr/bin/a one\nExec=/opt/b two".toList secondEntry rfl

/-! ## Claim C5: category assigned to AI-host applications -/

/-- Any record the Linux parser accepts has category `"other"` (the literal in
`LinuxDiscoverer._parse_desktop_file`). -/
theorem parse_ok_category {content : List Char} {app : DiscoveredApp}
    (h : parse_desktop_file content = .ok (some app)) : app.category = "other".toList := by
  unfold parse_desktop_file at h
  cases hloop : desktopLoop (pySplitChar '\n' content) none none with
  | error e => rw [hloop] at h; cases h
  | ok pair =>
    obtain ⟨n', e'⟩ := pair
    rw [hloop] at h
    simp only [] at h
    cases n' with
    | none => cases h
    | some name =>
      simp only [] at h
      by_cases hnil : name = []
      · rw [if_pos hnil] at h
        exact Option.noConfusion (Except.ok.inj h)
      · rw [if_neg hnil] at h
        have happ' := Option.some.inj (Except.ok.inj h)
        subst happ'
        rfl

/-- C5 counterexample: the Linux desktop entry for Visual Studio Code is
classified as an AI host (`is_ai_host = true`) but its category is `"other"`,
not `"dev_tools"` — the Linux collector hard-codes `category="other"`. -/
theorem linux_host_category_counterexample :
    (match parse_desktop_file
        "[Desktop Entry]\nName=Visual Studio Code\nExec=/usr/bin/code".toList with
     | .ok (some a) => some (a.is_ai_host, a.category)
     | _ => none) = some (true, "other".toList) ∧
    "other".toList ≠ "dev_tools".toList :=
  ⟨rfl, by decide⟩

/-- C5 (amended): only the macOS collector assigns categories: a macOS app
classified as AI-host and not AI gets category `"dev_tools"`, while every
record produced by the Linux collector — including the Visual Studio Code
desktop entry, which is classified `is_ai_host = true` — has category
`"other"`. -/
theorem host_app_category :
    (∀ name bundle_id,
      (is_ai_related name bundle_id).1 = false →
      (is_ai_related name bundle_id).2 = true →
      macos_category name (is_ai_related name bundle_id).1 (is_ai_related name bundle_id).2
        = "dev_tools".toList) ∧
    (∀ content app, parse_desktop_file content = .ok (some app) →
      app.category = "other".toList) := by
  constructor
  · intro name bundle_id h1 h2
    rw [h1, h2]
    rfl
  · intro content app h
    exact parse_ok_category h

/-- The record the Linux parser produces for the Visual Studio Code desktop
entry. -/
def vscodeEntry : DiscoveredApp :=
  { app_id := "visual-studio-code".toList, name := "Visual Studio Code".toList,
    category := "other".toList, path := "/usr/bin/code".toList,
    linux := some { paths := ["/usr/bin/code".toList],
                    executable_name := some "code".toList },
    is_ai_app := false, is_ai_host := true }

/-- C5 witness: the macOS branch at the host-classified name
`"Visual Studio Code"`, and the Linux branch at its desktop entry. -/
theorem host_app_category_witness :
    macos_category "Visual Studio Code".toList
      (is_ai_related "Visual Studio Code".toList "com.microsoft.VSCode".toList).1
      (is_ai_related "Visual Studio Code".toList "com.microsoft.VSCode".toList).2
      = "dev_tools".toList ∧
    vscodeEntry.category = "other".toList :=
  ⟨host_app_category.1 "Visual Studio Code".toList "com.microsoft.VSCode".toList
      (by decide) (by decide),
   host_app_category.2
      "[Desktop Entry]\nName=Visual Studio Code\nExec=/usr/bin/code".toList vscodeEntry rfl⟩

/-! ## Claim C6: registry ordering

`discover_apps` sorts with the key
`(not a.is_ai_app, not a.is_ai_host, a.name.lower())`. Python compares such
tuples lexicographically with `False < True` and strings lexicographically by
code point; the tuple is modelled as the flat `List Nat`
`[0/1 for the negated flags] ++ lowered code points`, which has the same
lexicographic order because the first two entries are always present.
`list.sort` is a stable comparison sort; it is modelled with
`List.insertionSort`, which is stable and produces the same sorted-by-key
list. -/

def natLexLE : List Nat → List Nat → Bool
  | [], _ => true
  | _ :: _, [] => false
  | x :: xs, y :: ys => if x < y then true else if y < x then false else natLexLE xs ys

theorem natLexLE_trans : ∀ {a b c : List Nat},
    natLexLE a b = true → natLexLE b c = true → natLexLE a c = true := by
  intro a
  induction a with
  | nil => intro b c _ _; rfl
  | cons x xs ih =>
    intro b c hab hbc
    cases b with
    | nil => rw [natLexLE] at hab; cases hab
    | cons y ys =>
      cases c with
      | nil => rw [natLexLE] at hbc; cases hbc
      | cons z zs =>
        rw [natLexLE] at hab hbc ⊢
        by_cases hxy : x < y
        · by_cases hyz : y < z
          · rw [if_pos (by omega)]
          · by_cases hzy : z < y
            · rw [if_neg hyz, if_pos hzy] at hbc; cases hbc
            · rw [if_pos (by omega)]
        · by_cases hyx : y < x
          · rw [if_neg hxy, if_pos hyx] at hab; cases hab
          · have hxy' : x = y := by omega
            subst hxy'
            rw [if_neg hxy, if_neg hyx] at hab
            by_cases hxz : x < z
            · rw [if_pos hxz]
            · by_cases hzx : z < x
              · rw [if_neg hxz, if_pos hzx] at hbc; cases hbc
              · rw [if_neg hxz, if_neg hzx] at hbc ⊢
                exact ih hab hbc

theorem natLexLE_total : ∀ a b : List Nat, natLexLE a b = true ∨ natLexLE b a = true := by
  intro a
  induction a with
  | nil => intro b; exact Or.inl rfl
  | cons x xs ih =>
    intro b
    cases b with
    | nil => exact Or.inr rfl
    | cons y ys =>
      rw [natLexLE, natLexLE]
      by_cases hxy : x < y
      · rw [if_pos hxy]; exact Or.inl rfl
      · by_cases hyx : y < x
        · rw [if_neg hxy, if_pos hyx, if_pos hyx]; exact Or.inr rfl
        · rw [if_neg hxy, if_neg hyx, if_neg hyx, if_neg hxy]
          exact ih ys

/-- The sort key of `discover_apps`:
`(not a.is_ai_app, not a.is_ai_host, a.name.lower())`. -/
def sort_key (a : DiscoveredApp) : List Nat :=
  (if a.is_ai_app then 0 else 1) :: (if a.is_ai_host then 0 else 1)
    :: (pyLower a.name).map Char.toNat

def appLE (a b : DiscoveredApp) : Prop := natLexLE (sort_key a) (sort_key b) = true

instance : DecidableRel appLE := fun _ _ => inferInstanceAs (Decidable (_ = true))

instance : IsTrans DiscoveredApp appLE := ⟨fun _ _ _ => natLexLE_trans⟩

instance : IsTotal DiscoveredApp appLE := ⟨fun a b => natLexLE_total (sort_key a) (sort_key b)⟩

/-- `apps.sort(key=...)` of `discover_apps`, as a stable sort by `sort_key`. -/
def sort_apps (l : List DiscoveredApp) : List DiscoveredApp := l.insertionSort appLE

/-- The tier of the claimed ordering: AI apps, then AI hosts, then others. -/
def tier (a : DiscoveredApp) : Nat :=
  if a.is_ai_app then 0 else if a.is_ai_host then 1 else 2

/-- Case-insensitive lexicographic comparison of app names. -/
def nameLE (a b : DiscoveredApp) : Prop :=
  natLexLE ((pyLower a.name).map Char.toNat) ((pyLower b.name).map Char.toNat) = true

/-- The ordering the spec describes: strictly earlier tier, or same tier and
names in case-insensitive lexicographic order. -/
def registryOrder (a b : DiscoveredApp) : Prop :=
  tier a < tier b ∨ (tier a = tier b ∧ nameLE a b)

theorem appLE_registryOrder {a b : DiscoveredApp}
    (ha : ¬(a.is_ai_app = true ∧ a.is_ai_host = true))
    (hb : ¬(b.is_ai_app = true ∧ b.is_ai_host = true))
    (h : appLE a b) : registryOrder a b := by
  cases ha1 : a.is_ai_app <;> cases ha2 : a.is_ai_host <;>
    cases hb1 : b.is_ai_app <;> cases hb2 : b.is_ai_host <;>
    simp_all [appLE, sort_key, natLexLE, registryOrder, tier, nameLE]

/-- The three-app example of the spec: `Z` neither, `A` AI app, `M` AI host. -/
def zNeither : DiscoveredApp := { app_id := "z".toList, name := "Z".toList }

def aAiApp : DiscoveredApp :=
  { app_id := "a".toList, name := "A".toList, is_ai_app := true }

def mHostApp : DiscoveredApp :=
  { app_id := "m".toList, name := "M".toList, is_ai_host := true }

/-- C6: for any list whose records never have both classification flags set
(which is what the classifier produces), the sorted registry is a permutation
of the input, pairwise ordered by tier — AI apps, then AI hosts, then others —
with case-insensitive lexicographic names inside a tier; and the spec's
three-app example sorts to `A, M, Z`. -/
theorem registry_sort_order :
    (∀ l : List DiscoveredApp,
      (∀ a ∈ l, ¬(a.is_ai_app = true ∧ a.is_ai_host = true)) →
      (sort_apps l).Perm l ∧ (sort_apps l).Pairwise registryOrder) ∧
    (sort_apps [zNeither, aAiApp, mHostApp]).map DiscoveredApp.name
      = ["A".toList, "M".toList, "Z".toList] := by
  constructor
  · intro l hl
    have hperm : (sort_apps l).Perm l := List.perm_insertionSort appLE l
    refine ⟨hperm, ?_⟩
    have hsorted : List.Sorted appLE (sort_apps l) := List.sorted_insertionSort appLE l
    refine List.Pairwise.imp_of_mem ?_ hsorted
    intro a b hma hmb hab
    exact appLE_registryOrder (hl a (hperm.mem_iff.mp hma)) (hl b (hperm.mem_iff.mp hmb)) hab
  · rfl

/-- C6 witness at the spec's three-app example. -/
theorem registry_sort_order_witness :
    (sort_apps [zNeither, aAiApp, mHostApp]).Perm [zNeither, aAiApp, mHostApp] ∧
    (sort_apps [zNeither, aAiApp, mHostApp]).Pairwise registryOrder :=
  registry_sort_order.1 [zNeither, aAiApp, mHostApp] (by decide)

/-! ## Claim C9: `DiscoveredApp.to_dict`

Python values appearing in the `asdict(self)` dictionary are modelled by
`PyVal`; `truthy` is Python truthiness (`None`, `""`, `[]`, `{}`, `False` are
falsy), and the final dictionary comprehension keeps a key iff its value
`is not None` — truthiness plays no role there. -/

inductive PyVal where
  | none
  | str (s : List Char)
  | boolv (b : Bool)
  | strList (xs : List (List Char))
  | dict (kvs : List (String × PyVal))

def PyVal.truthy : PyVal → Bool
  | .none => false
  | .str s => !s.isEmpty
  | .boolv b => b
  | .strList xs => !xs.isEmpty
  | .dict kvs => !kvs.isEmpty

def PyVal.isNone : PyVal → Bool
  | .none => true
  | _ => false

/-- An `Optional[str]` field as a `PyVal`. -/
def optStr : Option (List Char) → PyVal
  | .none => .none
  | some s => .str s

/-- `asdict` of an `AppSignature`, in dataclass field order. -/
def sig_asdict (sig : AppSignature) : List (String × PyVal) :=
  [("bundle_id", optStr sig.bundle_id),
   ("team_id", optStr sig.team_id),
   ("paths", .strList sig.paths),
   ("executable_name", optStr sig.executable_name),
   ("publisher", optStr sig.publisher),
   ("version", optStr sig.version)]

/-- The per-platform normalization in `to_dict`:
`if d.get('macos') and not any(v for v in d['macos'].values() if v): d['macos'] = None`
— an absent signature stays `None`, a present one is kept verbatim as a
sub-dictionary unless all of its values are falsy. -/
def sigVal (o : Option AppSignature) : PyVal :=
  match o with
  | .none => .none
  | some sig =>
    if (sig_asdict sig).any (fun kv => kv.2.truthy) then .dict (sig_asdict sig) else .none

/-- `asdict(self)` for a `DiscoveredApp` with the signature normalization
applied, in dataclass field order. -/
def to_dict_base (app : DiscoveredApp) : List (String × PyVal) :=
  [("app_id", .str app.app_id),
   ("name", .str app.name),
   ("vendor", optStr app.vendor),
   ("category", .str app.category),
   ("path", .str app.path),
   ("macos", sigVal app.macos),
   ("windows", sigVal app.windows),
   ("linux", sigVal app.linux),
   ("icon_path", optStr app.icon_path),
   ("icon_base64", optStr app.icon_base64),
   ("is_ai_app", .boolv app.is_ai_app),
   ("is_ai_host", .boolv app.is_ai_host),
   ("discovered_at", .str app.discovered_at),
   ("machine_id", .str app.machine_id)]

/-- `to_dict(include_icon)`: pop `icon_base64` when icons are not requested,
then drop exactly the keys whose value `is None`. -/
def to_dict (app : DiscoveredApp) (include_icon : Bool) : List (String × PyVal) :=
  (if include_icon then to_dict_base app
   else (to_dict_base app).filter (fun kv => kv.1 != "icon_base64")).filter
    (fun kv => !kv.2.isNone)

/-- Python `d[k]` lookup on the association-list model of a dict. -/
def pyLookup (k : String) (kvs : List (String × PyVal)) : Option PyVal :=
  (kvs.find? (fun kv => kv.1 == k)).map (fun kv => kv.2)

/-- The macOS signature of the C9 counterexample: only `bundle_id` set, so
the signature is kept, with its `None`-valued fields intact. -/
def xSig : AppSignature := { bundle_id := some "com.example.x".toList }

def nullFieldsApp : DiscoveredApp :=
  { app_id := "x".toList, name := "X".toList, macos := some xSig }

/-- C9 counterexample: in the icon-included form, the emitted object for
`nullFieldsApp` maps `"macos"` to a sub-dictionary that still contains the
`None`-valued key `"team_id"` (inner nulls are NOT omitted), and it contains
the key `"path"` with the empty-string value (empty-but-present values are
NOT omitted) — both contradicting the claim that no null or empty value
appears. -/
theorem to_dict_inner_nulls_counterexample :
    pyLookup "macos" (to_dict nullFieldsApp true) = some (PyVal.dict (sig_asdict xSig)) ∧
    ("team_id", PyVal.none) ∈ sig_asdict xSig ∧
    pyLookup "path" (to_dict nullFieldsApp true) = some (PyVal.str []) :=
  ⟨rfl, List.mem_cons_of_mem _ (List.mem_cons_self _ _), rfl⟩

/-- C9 (amended): `to_dict` omits exactly the top-level `None`-valued fields
(no emitted top-level value is `None`, but empty-but-present values survive);
in the no-icon form the `icon_base64` key is additionally stripped; and a
platform signature with at least one truthy field is kept verbatim as a
sub-object — including any `None`-valued keys inside it. -/
theorem to_dict_omissions :
    (∀ (app : DiscoveredApp) (include_icon : Bool) kv,
      kv ∈ to_dict app include_icon → kv.2 ≠ PyVal.none) ∧
    (∀ (app : DiscoveredApp) kv,
      kv ∈ to_dict app false → kv.1 ≠ "icon_base64") ∧
    (∀ (app : DiscoveredApp) (include_icon : Bool) (sig : AppSignature),
      app.macos = some sig →
      (sig_asdict sig).any (fun kv => kv.2.truthy) = true →
      ("macos", PyVal.dict (sig_asdict sig)) ∈ to_dict app include_icon) := by
  refine ⟨?_, ?_, ?_⟩
  · intro app include_icon kv hkv
    have h := (List.mem_filter.mp hkv).2
    intro hnone
    rw [hnone] at h
    cases h
  · intro app kv hkv
    have h1 := (List.mem_filter.mp hkv).1
    have h2 := (List.mem_filter.mp h1).2
    intro heq
    rw [heq] at h2
    cases h2
  · intro app include_icon sig hmac htruthy
    have hval : sigVal app.macos = PyVal.dict (sig_asdict sig) := by
      rw [hmac]
      unfold sigVal
      simp only []
      rw [if_pos htruthy]
    have hmem0 : ("macos", PyVal.dict (sig_asdict sig)) ∈ to_dict_base app := by
      unfold to_dict_base
      rw [← hval]
      exact List.mem_cons_of_mem _ (List.mem_cons_of_mem _ (List.mem_cons_of_mem _
        (List.mem_cons_of_mem _ (List.mem_cons_of_mem _ (List.mem_cons_self _ _)))))
    have hmem1 : ("macos", PyVal.dict (sig_asdict sig)) ∈
        (if include_icon then to_dict_base app
         else (to_dict_base app).filter (fun kv => kv.1 != "icon_base64")) := by
      cases include_icon with
      | true => exact hmem0
      | false =>
        rw [if_neg (by simp)]
        exact List.mem_filter.mpr ⟨hmem0, rfl⟩
    exact List.mem_filter.mpr ⟨hmem1, rfl⟩

/-- C9 witness at `nullFieldsApp`: its kept macOS sub-object is a member of
both export forms, is not `None`, and is not the `icon_base64` key. -/
theorem to_dict_omissions_witness :
    ("macos", PyVal.dict (sig_asdict xSig)) ∈ to_dict nullFieldsApp true ∧
    PyVal.dict (sig_asdict xSig) ≠ PyVal.none ∧
    ("macos" : String) ≠ "icon_base64" :=
  have h3 := to_dict_omissions.2.2 nullFieldsApp true xSig rfl rfl
  have h3' := to_dict_omissions.2.2 nullFieldsApp false xSig rfl rfl
  ⟨h3, to_dict_omissions.1 nullFieldsApp true _ h3,
   to_dict_omissions.2.1 nullFieldsApp _ h3'⟩
